import Mathlib

/-!
Verification development for the torrent-stream aggregation service
(`src/const.js`, which holds the constants module and, after the module
separator, the express server with `getIdType`, `sortStreams`, `getStreams`
and the `/stream/:type/:id.json` route handler).

The JavaScript is embedded shallowly: strings are Lean `String`s processed as
`List Char`; the regular expressions of the source are embedded as explicit
character scanners with the same leftmost-match semantics; the network is
abstracted as one `FetchOutcome` per configured provider, covering exactly the
failure modes the source distinguishes (thrown error, timeout, non-2xx status,
malformed/empty JSON body, a result list).  JavaScript falsiness of the string
fields of provider payloads (`undefined`, `null`, `""`) is modelled by the
empty string, which the source treats identically everywhere these fields are
read.  `src/util.js` is imported by the server but is not among the repository
sources; its three functions used here (`parseQuality`, `parseSize`,
`detectVideoFeatures`) are modelled from the spec and marked as such.
-/

namespace MultiTorr

/-! ### Character helpers -/

/-- ASCII lower-casing of one character, the fragment of JavaScript
`toLowerCase()` relevant to the source's ASCII patterns. -/
def lowerChar (c : Char) : Char :=
  if 65 ≤ c.toNat ∧ c.toNat ≤ 90 then Char.ofNat (c.toNat + 32) else c

/-- ASCII upper-casing of one character (JavaScript `toUpperCase()`). -/
def upperChar (c : Char) : Char :=
  if 97 ≤ c.toNat ∧ c.toNat ≤ 122 then Char.ofNat (c.toNat - 32) else c

def toLowerList (l : List Char) : List Char := l.map lowerChar

def upperStr (s : String) : String := String.mk (s.toList.map upperChar)

/-- JavaScript `\d`: the ASCII digits. -/
def isDigitC (c : Char) : Bool := 48 ≤ c.toNat && c.toNat ≤ 57

/-- Numeric value of an ASCII digit. -/
def dval (c : Char) : Nat := c.toNat - 48

/-- Hex-digit class of the source's `/btih:([a-f0-9]+)/i` (the `i` flag also
admits `A`-`F`). -/
def isHexC (c : Char) : Bool :=
  isDigitC c || (97 ≤ c.toNat && c.toNat ≤ 102) || (65 ≤ c.toNat && c.toNat ≤ 70)

/-- JavaScript `\s`, restricted to the ASCII whitespace that can occur here. -/
def isSpaceC (c : Char) : Bool := c = ' ' || c = '\t' || c = '\n' || c = '\r'

/-- `p` as matched case-insensitively. -/
def isPChar (c : Char) : Bool := c = 'p' || c = 'P'

/-- Exact prefix test on character lists. -/
def startsWithL : List Char → List Char → Bool
  | [], _ => true
  | _ :: _, [] => false
  | p :: ps, c :: cs => p = c && startsWithL ps cs

/-- Case-insensitive prefix test on character lists. -/
def startsWithCIL : List Char → List Char → Bool
  | [], _ => true
  | _ :: _, [] => false
  | p :: ps, c :: cs => lowerChar p = lowerChar c && startsWithCIL ps cs

/-- Substring test (used for `String.includes` in `getQualitySymbol`). -/
def containsL (pat : List Char) : List Char → Bool
  | [] => pat.isEmpty
  | c :: rest => startsWithL pat (c :: rest) || containsL pat rest

def containsTok (l : List Char) (pat : String) : Bool := containsL pat.toList l

/-- Generic leftmost-match scanner: the embedding of how a JavaScript regex
engine advances the start position one character at a time until an
alternative matches. -/
def scanFirst (f : List Char → Option α) : List Char → Option α
  | [] => none
  | c :: rest =>
    match f (c :: rest) with
    | some r => some r
    | none => scanFirst f rest

/-- If a case-insensitive literal token starts here, return the matched slice
in its original casing (what `match(...)[0]` yields). -/
def matchCISlice (pat : List Char) (l : List Char) : Option (List Char) :=
  if startsWithCIL pat l then some (l.take pat.length) else none

/-- Decimal value of a digit run. -/
def digitsToNat (l : List Char) : Nat := l.foldl (fun acc c => 10 * acc + dval c) 0

/-- JavaScript `x || y` on strings (empty string is falsy). -/
def jsOr (a b : String) : String := if a = "" then b else a

/-- JavaScript `parseInt` on the strings that reach it here: the leading digit
run, `none` standing for `NaN`. -/
def jsParseInt (s : String) : Option Nat :=
  let ds := s.toList.takeWhile isDigitC
  if ds.isEmpty then none else some (digitsToNat ds)

def jsParseIntOpt (s : Option String) : Option Nat := s.bind jsParseInt

/-! ### `getIdType`, id acceptance and query building (const.js lines 86-91,
192-202) -/

/-- `/^\d+$/.test(id)` -/
def allDigitsId (l : List Char) : Bool := !l.isEmpty && l.all isDigitC

/-- const.js lines 86-91: prefix-based id classification. -/
def getIdType (id : String) : Option String :=
  let l := id.toList
  if startsWithL ['t', 't'] l then some "imdb"
  else if startsWithL ['t', 'm', 'd', 'b', '-'] l then some "tmdb"
  else if allDigitsId l then some "tmdb"
  else none

/-- const.js lines 192-195: `id.replace('tmdb-', '')` behind a
`startsWith('tmdb-')` guard, i.e. dropping the five-character prefix. -/
def actualIdOf (id : String) : String :=
  if startsWithL ['t', 'm', 'd', 'b', '-'] id.toList then String.mk (id.toList.drop 5)
  else id

/-- const.js lines 197-202: the provider query string. -/
def queryOf (type actualId : String) (season episode : Option String) : String :=
  if type = "series" then actualId ++ ":" ++ season.getD "" ++ ":" ++ episode.getD ""
  else actualId

/-- The id shapes named by the spec: `^tt\d+$`, `^\d+$`, `^tmdb-\d+$`.
Stated from the spec's words, for comparison with `getIdType`. -/
def ttShape (l : List Char) : Bool :=
  startsWithL ['t', 't'] l && allDigitsId (l.drop 2)

def tmdbShape (l : List Char) : Bool :=
  startsWithL ['t', 'm', 'd', 'b', '-'] l && allDigitsId (l.drop 5)

def specIdShape (id : String) : Bool :=
  ttShape id.toList || allDigitsId id.toList || tmdbShape id.toList

/-! ### Deduplication (const.js lines 240-274) -/

/-- One alternative position of `/btih:([a-f0-9]+)/i`: the literal `btih:`
(case-insensitively) followed by a non-empty greedy hex run; the capture is
returned. -/
def btihAt (l : List Char) : Option (List Char) :=
  if startsWithCIL ['b', 't', 'i', 'h', ':'] l then
    let run := (l.drop 5).takeWhile isHexC
    if run.isEmpty then none else some run
  else none

/-- `magnetLink.match(/btih:([a-f0-9]+)/i)?.[1]?.toLowerCase()` -/
def extractBtih (magnet : String) : Option String :=
  (scanFirst btihAt magnet.toList).map (fun cs => String.mk (toLowerList cs))

/-- The dedup key of one raw result: `none` when the magnet link is falsy or
carries no extractable hash (such results are skipped). -/
def rawHash (magnetLink : String) : Option String :=
  if magnetLink = "" then none else extractBtih magnetLink

/-- One alternative position of `\d{3,4}p`: greedily four digits then `p`,
else three digits then `p` (the `i` flag makes `p` case-insensitive). -/
def digitsPAt (l : List Char) : Option (List Char) :=
  match l with
  | a :: b :: c :: d :: e :: _ =>
    if isDigitC a && isDigitC b && isDigitC c && isDigitC d && isPChar e then
      some [a, b, c, d, e]
    else if isDigitC a && isDigitC b && isDigitC c && isPChar d then some [a, b, c, d]
    else none
  | [a, b, c, d] =>
    if isDigitC a && isDigitC b && isDigitC c && isPChar d then some [a, b, c, d]
    else none
  | _ => none

/-- One alternative position of `/\d{3,4}p|4k|uhd|HDTS|CAM/i`, alternatives in
source order. -/
def qualityAt (l : List Char) : Option (List Char) :=
  digitsPAt l <|> matchCISlice ['4', 'k'] l <|> matchCISlice ['u', 'h', 'd'] l <|>
    matchCISlice ['h', 'd', 't', 's'] l <|> matchCISlice ['c', 'a', 'm'] l

/-- `title.match(/\d{3,4}p|4k|uhd|HDTS|CAM/i)?.[0] || ''` (const.js line 252). -/
def matchQuality (title : String) : String :=
  match scanFirst qualityAt title.toList with
  | some cs => String.mk cs
  | none => ""

/-- Tail of `/\d+(\.\d+)?\s*(GB|MB)/i` after the integer digits: optional
whitespace then `GB`/`MB` case-insensitively; `acc` is the already-matched
slice. -/
def unitSlice (acc : List Char) (l : List Char) : Option (List Char) :=
  let ws := l.takeWhile isSpaceC
  match l.drop ws.length with
  | g :: b :: _ =>
    if (lowerChar g = 'g' || lowerChar g = 'm') && lowerChar b = 'b' then
      some (acc ++ ws ++ [g, b])
    else none
  | _ => none

/-- One position of `/\d+(\.\d+)?\s*(GB|MB)/i`: a non-empty greedy digit run,
an optional fractional part (tried first, as the regex engine does), then the
unit. -/
def sizeSliceAt (l : List Char) : Option (List Char) :=
  let ds := l.takeWhile isDigitC
  if ds.isEmpty then none
  else
    let rest := l.drop ds.length
    let withFrac : Option (List Char) :=
      match rest with
      | '.' :: r2 =>
        let fs := r2.takeWhile isDigitC
        if fs.isEmpty then none else unitSlice (ds ++ '.' :: fs) (r2.drop fs.length)
      | _ => none
    withFrac <|> unitSlice ds rest

/-- `title.match(/\d+(\.\d+)?\s*(GB|MB)/i)?.[0] || ''` (const.js line 255). -/
def matchSize (title : String) : String :=
  match scanFirst sizeSliceAt title.toList with
  | some cs => String.mk cs
  | none => ""

/-- `title.split('\n')[0].trim()`: the first line, with leading and trailing
whitespace removed. -/
def firstLineTrim (title : String) : String :=
  let firstLine := title.toList.takeWhile (fun c => c ≠ '\n')
  String.mk (((firstLine.dropWhile isSpaceC).reverse.dropWhile isSpaceC).reverse)

/-- A provider's unnormalized payload entry, with `source` as tagged during
fan-out.  Absent (`undefined`) string fields are modelled by `""`, which the
source treats identically (falsy) wherever these fields are read. -/
structure RawResult where
  magnetLink : String := ""
  title : String := ""
  filename : String := ""
  quality : String := ""
  size : String := ""
  source : String := ""
deriving DecidableEq

/-- A merged candidate as pushed by the dedup `reduce` (const.js 259-267). -/
structure Candidate where
  hash : String
  magnetLink : String
  filename : String
  websiteTitle : String
  quality : String
  size : String
  source : String
deriving DecidableEq

/-- The object pushed for the first raw result carrying hash `h`
(const.js lines 251-267). -/
def mkCandidate (r : RawResult) (h : String) : Candidate :=
  let quality := jsOr r.quality (matchQuality r.title)
  let size := jsOr r.size (matchSize r.title)
  let filename := jsOr r.filename (jsOr (firstLineTrim r.title) "Unknown")
  { hash := h
    magnetLink := r.magnetLink
    filename := filename
    websiteTitle := jsOr r.title filename
    quality := quality
    size := size
    source := jsOr r.source "Unknown" }

/-- The dedup `reduce` (const.js lines 240-274), with the `seenMagnets` set
threaded explicitly: skip results with no usable hash, first-seen-wins on the
lowercased btih hash. -/
def dedupAux : List RawResult → List String → List Candidate
  | [], _ => []
  | r :: rest, seen =>
    match rawHash r.magnetLink with
    | none => dedupAux rest seen
    | some h =>
      if h ∈ seen then dedupAux rest seen
      else mkCandidate r h :: dedupAux rest (h :: seen)

def dedupStreams (l : List RawResult) : List Candidate := dedupAux l []

/-! ### Episode filter (const.js lines 277-304) -/

/-- `\d{1,2}` with nothing required after it: greedily two digits, else one. -/
def epNum : List Char → Option Nat
  | a :: b :: _ =>
    if isDigitC a then
      if isDigitC b then some (10 * dval a + dval b) else some (dval a)
    else none
  | [a] => if isDigitC a then some (dval a) else none
  | [] => none

/-- One position of `/s(\d{1,2})e(\d{1,2})/i` on an already-lowercased title:
`s`, one or two digits (two greedily; shrinking to one only helps when the
second character is `e`, which a digit never is), `e`, one or two digits.  A
full match needs at least four characters (`s`, digit, `e`, digit), so shorter
suffixes never match. -/
def seasonEpAt : List Char → Option (Nat × Nat)
  | c :: a :: b :: e1 :: r3 =>
    if c = 's' && isDigitC a then
      if isDigitC b then
        if e1 = 'e' then (epNum r3).map (fun ep => (10 * dval a + dval b, ep)) else none
      else if b = 'e' then (epNum (e1 :: r3)).map (fun ep => (dval a, ep)) else none
    else none
  | _ => none

/-- `title.match(/s(\d{1,2})e(\d{1,2})/i)`: the leftmost combined token. -/
def firstSxxExx (t : List Char) : Option (Nat × Nat) := scanFirst seasonEpAt t

/-- All matches of `/m(\d{1,2})/gi` on a lowercased title (with `m` the marker
`s` or `e`), each parsed to its number; successive matches do not overlap, a
failed position advances by one character. -/
def markTokens (m : Char) : List Char → List Nat
  | [] => []
  | [_] => []
  | [c, a] =>
    if c = m then (if isDigitC a then [dval a] else markTokens m [a])
    else markTokens m [a]
  | c :: a :: b :: r3 =>
    if c = m then
      if isDigitC a then
        if isDigitC b then (10 * dval a + dval b) :: markTokens m r3
        else dval a :: markTokens m (b :: r3)
      else markTokens m (a :: b :: r3)
    else markTokens m (a :: b :: r3)

def sTokens (t : List Char) : List Nat := markTokens 's' t

def eTokens (t : List Char) : List Nat := markTokens 'e' t

/-- `array.includes(n)` against a possibly-`NaN` requested number
(`includes(NaN)` is false for these integer arrays). -/
def natIncludes (l : List Nat) : Option Nat → Bool
  | none => false
  | some n => decide (n ∈ l)

/-- The filter predicate body (const.js lines 281-301) over the lowercased
title text, with `sN`/`eN` the `parseInt`ed requested season/episode. -/
def episodeMatchText (t : List Char) (sN eN : Option Nat) : Bool :=
  match firstSxxExx t with
  | some (a, b) => decide (sN = some a) && decide (eN = some b)
  | none =>
    let seasons := sTokens t
    let episodes := eTokens t
    natIncludes seasons sN && natIncludes episodes eN &&
      decide (seasons.length = 1) && decide (episodes.length = 1)

def episodeMatchTitle (title : String) (sN eN : Option Nat) : Bool :=
  episodeMatchText (toLowerList title.toList) sN eN

/-- `(stream.filename || stream.websiteTitle || '').toLowerCase()` then the
match policy (const.js line 282). -/
def episodeMatchCand (c : Candidate) (sN eN : Option Nat) : Bool :=
  episodeMatchTitle (jsOr c.filename (jsOr c.websiteTitle "")) sN eN

/-- The spec's wording of the same policy (spec §4.4): combined `SxxExx` token
decides alone; otherwise the standalone token collections must each be exactly
the singleton of the requested value. -/
def episodeMatchSpec (title : String) (s e : Nat) : Bool :=
  let t := toLowerList title.toList
  match firstSxxExx t with
  | some (a, b) => decide (a = s) && decide (b = e)
  | none => decide (sTokens t = [s]) && decide (eTokens t = [e])

/-! ### Provider fan-out and the pipeline (const.js lines 180-312) -/

/-- The settled outcome of one provider's `fetchWithTimeout` + body handling,
as the source distinguishes them: a thrown error or timeout rejection lands in
the `catch`; a non-2xx status returns early; a body whose JSON is malformed or
lacks a non-empty `results` array returns early; otherwise the result list is
used. -/
inductive FetchOutcome where
  | thrown
  | timedOut
  | httpStatus (status : Nat)
  | malformedJson
  | results (rs : List RawResult)
deriving DecidableEq

/-- The per-provider wrapper (const.js lines 205-235): every failure mode
contributes `[]`; a non-empty result list is tagged with the provider's
display name. -/
def providerFetch (sourceName : String) (o : FetchOutcome) : List RawResult :=
  match o with
  | .results rs => if rs.isEmpty then [] else rs.map (fun r => { r with source := sourceName })
  | _ => []

/-- `allResults.flat()`: concatenation in provider order. -/
def rawsOf (providers : List (String × FetchOutcome)) : List RawResult :=
  (providers.map (fun p => providerFetch p.1 p.2)).flatten

/-- Truthiness of the `season`/`episode` arguments as the route passes them
(strings from `id.split(':')`, or absent). -/
def strTruthy : Option String → Bool
  | none => false
  | some s => decide (s ≠ "")

/-- The body of `getStreams`'s `try` block (const.js lines 181-307), returning
`.error` where the source throws.  `providers` pairs each configured source's
display name with the settled outcome of its request; the query string the
source builds for that request is `queryOf` (computed here as in the source,
though the abstracted outcomes do not depend on it). -/
def getStreamsCore (type id : String) (season episode : Option String)
    (providers : List (String × FetchOutcome)) : Except String (List Candidate) :=
  if (getIdType id).isNone then .ok []
  else
    let actualId := actualIdOf id
    if type = "series" && (!strTruthy season || !strTruthy episode) then
      .error "Season and episode required for series"
    else
      let _query := queryOf type actualId season episode
      let combinedResults := dedupStreams (rawsOf providers)
      let final :=
        if type = "series" && strTruthy season && strTruthy episode then
          combinedResults.filter
            (fun st => episodeMatchCand st (jsParseIntOpt season) (jsParseIntOpt episode))
        else combinedResults
      .ok final

/-- `getStreams` as its caller sees it: the `catch` (const.js lines 308-311)
turns any thrown error into `[]`. -/
def getStreams (type id : String) (season episode : Option String)
    (providers : List (String × FetchOutcome)) : List Candidate :=
  match getStreamsCore type id season episode providers with
  | .ok l => l
  | .error _ => []

/-! ### Quality/size parsing for ranking, formatting, sorting and the route
handler (const.js lines 93-150, 314-404) -/

/-- Modelled from the spec: `parseQuality` lives in `src/util.js`, which is not
among the repository sources.  Per spec §4.5/§4.6 it maps a stream name to its
numeric quality tier for ranking: `2160`/`4k`/`uhd` ⇒ 2160, else `1080` ⇒
1080, else `720` ⇒ 720, else `480` ⇒ 480, anything else unranked (0),
matching case-insensitively anywhere in the text. -/
def parseQuality (name : String) : Int :=
  let l := toLowerList name.toList
  if containsTok l "2160" || containsTok l "4k" || containsTok l "uhd" then 2160
  else if containsTok l "1080" then 1080
  else if containsTok l "720" then 720
  else if containsTok l "480" then 480
  else 0

/-- Modelled from the spec: `parseSize` lives in `src/util.js`, which is not
among the repository sources.  Per spec §4.5 it extracts the first
`<number>(.<number>)? (GB|MB)` match from the text as a size in MB (absence ⇒
0, treated as 0 for ranking); GB are converted at 1024 MB/GB and any
fractional part is truncated, the spec fixing no finer convention. -/
def parseSize (name : String) : Int :=
  match scanFirst sizeSliceAt name.toList with
  | none => 0
  | some cs =>
    let ds := cs.takeWhile isDigitC
    let unitChar := lowerChar ((cs.drop ds.length).filter (fun c => !isSpaceC c)
      |>.dropWhile (fun c => isDigitC c || c = '.')).headI
    (digitsToNat ds : Int) * (if unitChar = 'g' then 1024 else 1)

/-- Modelled from the spec: `detectVideoFeatures` lives in `src/util.js`,
which is not among the repository sources.  The spec only says the features
list is joined into the title's second line (§6, rendered output item); no
claim depends on its contents, so it is modelled as finding no features. -/
def detectVideoFeatures (_filename : String) : List String := []

/-- const.js lines 94-110. -/
def getQualitySymbol (quality : String) : String :=
  let qualityStr := toLowerList quality.toList
  if containsTok qualityStr "2160" || containsTok qualityStr "4k" ||
      containsTok qualityStr "uhd" then "💨"
  else if containsTok qualityStr "1080" then "🎛️"
  else if containsTok qualityStr "720" then "🁬"
  else if containsTok qualityStr "480" then "⛃"
  else if containsTok qualityStr "cam" || containsTok qualityStr "hdts" then "🎲"
  else "🃠"

/-- The formatted stream object returned by the route (const.js lines 377-385);
`behaviorHints.notWebReady` is constant and omitted. -/
structure OutStream where
  name : String
  title : String
  url : String
  infoHash : String
deriving DecidableEq

/-- `[qualitySymbol, qualityDisplay, size, source].filter(Boolean).join(' | ')`
and the title assembly (const.js lines 347-385). -/
def formatStream (c : Candidate) : OutStream :=
  let features := detectVideoFeatures c.filename
  let featureStr := if features.isEmpty then "" else String.intercalate " | " features
  let qualityDisplay := if c.quality = "" then "" else upperStr c.quality
  let qualitySymbol := getQualitySymbol (jsOr qualityDisplay c.filename)
  let streamName :=
    String.intercalate " | " (([qualitySymbol, qualityDisplay, c.size, c.source]).filter (· ≠ ""))
  let streamTitle :=
    String.intercalate "\n"
      (([c.filename,
        String.intercalate " | " ((["☠︎ " ++ c.source, featureStr]).filter (· ≠ ""))]).filter
        (· ≠ ""))
  { name := streamName, title := streamTitle, url := c.magnetLink, infoHash := c.hash }

/-- const.js lines 126-133: the per-tier ideal size range in MB, `none` for an
unbounded maximum (`Infinity`). -/
def idealRange (q : Int) : Int × Option Int :=
  if q = 2160 then (10000, some 80000)
  else if q = 1080 then (2000, some 16000)
  else if q = 720 then (1000, some 8000)
  else if q = 480 then (500, some 4000)
  else (0, none)

def inRange (size : Int) (r : Int × Option Int) : Bool :=
  decide (r.1 ≤ size) &&
    (match r.2 with | none => true | some mx => decide (size ≤ mx))

/-- const.js lines 135-139 (`getIdealScore`). -/
def idealScore (size : Int) (r : Int × Option Int) : Int :=
  if inRange size r then 0
  else if size < r.1 then r.1 - size
  else size - r.2.getD size

/-- The comparator passed to `streams.sort` (const.js lines 113-149), as a
signed integer. -/
def cmpStreams (a b : OutStream) : Int :=
  let qualityA := parseQuality a.name
  let qualityB := parseQuality b.name
  let sizeA := parseSize a.name
  let sizeB := parseSize b.name
  if qualityA ≠ qualityB then qualityB - qualityA
  else
    let r := idealRange qualityA
    let scoreA := idealScore sizeA r
    let scoreB := idealScore sizeB r
    if scoreA ≠ scoreB then scoreA - scoreB
    else sizeB - sizeA

def sortLe (a b : OutStream) : Bool := decide (cmpStreams a b ≤ 0)

/-- `sortStreams` (const.js lines 112-150).  ECMAScript `Array.sort` with a
consistent comparator is stable and produces a sequence sorted by the
comparator; it is embedded as a stable merge sort over `sortLe`. -/
def sortStreams (l : List OutStream) : List OutStream := l.mergeSort sortLe

/-- `sortStreams(formattedStreams).slice(0, 50)` (const.js lines 394-395). -/
def topStreams (l : List OutStream) : List OutStream := (sortStreams l).take 50

/-- The `/stream/:type/:id.json` handler (const.js lines 315-404): series ids
are split on `:`, the id is validated, streams fetched, formatted, sorted and
capped at 50. -/
def handleStream (type id : String) (providers : List (String × FetchOutcome)) :
    List OutStream :=
  let parts := if type = "series" then id.splitOn ":" else [id]
  let tmdbId := parts.headD id
  let season := if type = "series" then parts[1]? else none
  let episode := if type = "series" then parts[2]? else none
  if (getIdType tmdbId).isNone then []
  else
    let streams := getStreams type tmdbId season episode providers
    if streams.isEmpty then []
    else topStreams (streams.map formatStream)

/-! ### Spec-side statements used for comparison -/

/-- One position of the spec's claimed quality token set
`{2160p,1080p,720p,480p,4k,uhd,HDTS,CAM}` (claim C8's wording), tokens tried
in the listed order. -/
def specTokenAt (l : List Char) : Option (List Char) :=
  matchCISlice ['2', '1', '6', '0', 'p'] l <|> matchCISlice ['1', '0', '8', '0', 'p'] l <|>
    matchCISlice ['7', '2', '0', 'p'] l <|> matchCISlice ['4', '8', '0', 'p'] l <|>
    matchCISlice ['4', 'k'] l <|> matchCISlice ['u', 'h', 'd'] l <|>
    matchCISlice ['h', 'd', 't', 's'] l <|> matchCISlice ['c', 'a', 'm'] l

/-- The spec's claimed quality derivation: first match of exactly the listed
token set, empty when no listed token occurs. -/
def specQualityToken (title : String) : String :=
  match scanFirst specTokenAt title.toList with
  | some cs => String.mk cs
  | none => ""

/-- The order the spec claims the ranked output realizes (claim C4): higher
quality tier first; within a tier, smaller size-fit score first; on equal
scores, larger size first. -/
def streamQuality (a : OutStream) : Int := parseQuality a.name

def streamSize (a : OutStream) : Int := parseSize a.name

def streamScore (a : OutStream) : Int :=
  idealScore (streamSize a) (idealRange (streamQuality a))

def rankLe (a b : OutStream) : Prop :=
  streamQuality b < streamQuality a ∨
    (streamQuality a = streamQuality b ∧
      (streamScore a < streamScore b ∨
        (streamScore a = streamScore b ∧ streamSize b ≤ streamSize a)))

/-- Replacing a provider's failed outcome by a successful empty result list;
used to state that failures contribute exactly nothing (claim C7). -/
def degradeOutcome : String × FetchOutcome → String × FetchOutcome
  | (n, FetchOutcome.results rs) => (n, FetchOutcome.results rs)
  | (n, _) => (n, FetchOutcome.results [])

/-! ## Theorems -/

lemma getStreamsCore_of_invalid {id : String} (h : getIdType id = none)
    (t : String) (s e : Option String) (ps : List (String × FetchOutcome)) :
    getStreamsCore t id s e ps = .ok [] := by
  simp [getStreamsCore, h]

/-- Claim C1 (amended).  Id acceptance in `getStreams` is prefix-based, not
shape-based: an id rejected by `getIdType` (no `tt`/`tmdb-` prefix and not all
digits) yields the empty list without error; every id of the spec's recognized
shapes `tt\d+`, `\d+`, `tmdb-\d+` is in particular accepted; and an accepted
`tmdb-` prefix is stripped before the query is built. -/
theorem idValidation_prefix_based :
    (∀ (id t : String) (s e : Option String) (ps : List (String × FetchOutcome)),
      getIdType id = none →
      getStreamsCore t id s e ps = .ok [] ∧ getStreams t id s e ps = []) ∧
    (∀ id : String, specIdShape id = true → (getIdType id).isSome = true) ∧
    (∀ s : String, actualIdOf ("tmdb-" ++ s) = s) ∧
    (∀ id : String, startsWithL ['t', 'm', 'd', 'b', '-'] id.toList = false →
      actualIdOf id = id) := by
  refine ⟨?_, ?_, ?_, ?_⟩
  · intro id t s e ps h
    refine ⟨getStreamsCore_of_invalid h t s e ps, ?_⟩
    simp [getStreams, getStreamsCore_of_invalid h t s e ps]
  · intro id h
    unfold specIdShape ttShape tmdbShape at h
    simp only [getIdType]
    split_ifs with h1 h2 h3 <;> simp_all
  · intro s
    have hdata : ("tmdb-" ++ s).toList = 't' :: 'm' :: 'd' :: 'b' :: '-' :: s.toList := by
      show ("tmdb-" ++ s).data = _
      rw [String.data_append]
      rfl
    unfold actualIdOf
    rw [hdata]
    simp [startsWithL]
  · intro id h
    unfold actualIdOf
    rw [h]
    simp

/-- Witness for the amended claim C1 at concrete inputs. -/
theorem idValidation_prefix_based_witness :
    (getStreamsCore "movie" "@@" none none [] = .ok [] ∧
      getStreams "movie" "@@" none none [] = []) ∧
    (getIdType "tt123").isSome = true ∧
    actualIdOf "tmdb-42" = "42" ∧
    actualIdOf "99" = "99" :=
  ⟨idValidation_prefix_based.1 "@@" "movie" none none [] (by decide),
    idValidation_prefix_based.2.1 "tt123" (by decide),
    idValidation_prefix_based.2.2.1 "42",
    idValidation_prefix_based.2.2.2 "99" (by decide)⟩

/-- Claim C1 (counterexample).  `"ttabc"` matches none of the shapes `tt\d+`,
`\d+`, `tmdb-\d+`, yet `getStreams` accepts it (prefix check only) and returns
the provider's results instead of the empty sequence. -/
theorem getStreams_accepts_nonNumeric_tt_id :
    specIdShape "ttabc" = false ∧
    getStreams "movie" "ttabc" none none
      [("P", FetchOutcome.results
        [{ magnetLink := "magnet:?xt=urn:btih:ff00", title := "T" }])] ≠ [] := by
  constructor
  · decide
  · decide

/-- Claim C2 (amended).  For a series request with a missing (falsy) season or
episode the `try` body of `getStreams` does raise the error, but the
function's own `catch` swallows it: the caller receives the empty list, not an
exception. -/
theorem series_missing_episode_error_caught :
    ∀ (id : String) (s e : Option String) (ps : List (String × FetchOutcome)),
      (getIdType id).isSome = true → (strTruthy s = false ∨ strTruthy e = false) →
      getStreamsCore "series" id s e ps = .error "Season and episode required for series" ∧
      getStreams "series" id s e ps = [] := by
  intro id s e ps h1 h2
  have hnone : (getIdType id).isNone = false := by
    cases hid : getIdType id <;> simp_all
  rcases h2 with h2 | h2 <;>
    exact ⟨by simp [getStreamsCore, hnone, h2], by simp [getStreams, getStreamsCore, hnone, h2]⟩

/-- Witness for the amended claim C2 at concrete inputs. -/
theorem series_missing_episode_error_caught_witness :
    getStreamsCore "series" "tt123" none (some "5") [] =
      .error "Season and episode required for series" ∧
    getStreams "series" "tt123" none (some "5") [] = [] :=
  series_missing_episode_error_caught "tt123" none (some "5") [] (by decide)
    (Or.inl (by decide))

/-- Claim C2 (counterexample).  With season absent (and providers available),
`getStreams` does not raise to its caller: the internal throw is caught and
the caller observes the empty list. -/
theorem series_missing_episode_returns_empty :
    getStreamsCore "series" "tt123" none (some "5")
      [("P", FetchOutcome.results
        [{ magnetLink := "magnet:?xt=urn:btih:ff00", title := "Show S01E05" }])] =
      .error "Season and episode required for series" ∧
    getStreams "series" "tt123" none (some "5")
      [("P", FetchOutcome.results
        [{ magnetLink := "magnet:?xt=urn:btih:ff00", title := "Show S01E05" }])] = [] :=
  ⟨rfl, rfl⟩

lemma providerFetch_degrade (p : String × FetchOutcome) :
    providerFetch (degradeOutcome p).1 (degradeOutcome p).2 = providerFetch p.1 p.2 := by
  obtain ⟨n, o⟩ := p
  cases o <;> simp [degradeOutcome, providerFetch]

lemma rawsOf_degrade (ps : List (String × FetchOutcome)) :
    rawsOf (ps.map degradeOutcome) = rawsOf ps := by
  unfold rawsOf
  rw [List.map_map]
  congr 1
  exact List.map_congr_left fun p _ => providerFetch_degrade p

/-- Claim C7.  Every per-provider failure mode (thrown error, timeout, non-2xx
status, malformed or empty JSON payload) contributes exactly the empty list,
and replacing each failed provider by a successful empty provider leaves the
pipeline's result unchanged — surviving providers' results are still merged
and the response shape never changes. -/
theorem provider_failure_isolation :
    (∀ n : String, providerFetch n .thrown = [] ∧ providerFetch n .timedOut = [] ∧
      (∀ st : Nat, providerFetch n (.httpStatus st) = []) ∧
      providerFetch n .malformedJson = [] ∧ providerFetch n (.results []) = []) ∧
    (∀ (t i : String) (s e : Option String) (ps : List (String × FetchOutcome)),
      getStreamsCore t i s e (ps.map degradeOutcome) = getStreamsCore t i s e ps ∧
      getStreams t i s e (ps.map degradeOutcome) = getStreams t i s e ps) := by
  constructor
  · intro n
    refine ⟨rfl, rfl, fun st => rfl, rfl, rfl⟩
  · intro t i s e ps
    have hcore : getStreamsCore t i s e (ps.map degradeOutcome) = getStreamsCore t i s e ps := by
      unfold getStreamsCore
      rw [rawsOf_degrade]
    exact ⟨hcore, by unfold getStreams; rw [hcore]⟩

/-- Claim C9.  The embedded pipeline is a pure function of its inputs: equal
provider response sets give identical ranked output, in contents and order. -/
theorem pipeline_deterministic :
    ∀ (t i : String) (s e : Option String) (ps1 ps2 : List (String × FetchOutcome)),
      ps1 = ps2 →
      getStreams t i s e ps1 = getStreams t i s e ps2 ∧
      handleStream t i ps1 = handleStream t i ps2 := by
  intro t i s e ps1 ps2 h
  subst h
  exact ⟨rfl, rfl⟩

/-- Witness for claim C9 at concrete inputs. -/
theorem pipeline_deterministic_witness :
    getStreams "movie" "tt1" none none [("P", FetchOutcome.results [])] =
      getStreams "movie" "tt1" none none [("P", FetchOutcome.results [])] ∧
    handleStream "movie" "tt1" [("P", FetchOutcome.results [])] =
      handleStream "movie" "tt1" [("P", FetchOutcome.results [])] :=
  pipeline_deterministic "movie" "tt1" none none _ _ rfl

lemma dedupAux_mem {l : List RawResult} {seen : List String} {c : Candidate}
    (hc : c ∈ dedupAux l seen) :
    c.hash ∉ seen ∧ ∃ pre r post, l = pre ++ r :: post ∧
      rawHash r.magnetLink = some c.hash ∧
      (∀ r2 ∈ pre, rawHash r2.magnetLink ≠ some c.hash) ∧ c = mkCandidate r c.hash := by
  induction l generalizing seen with
  | nil => simp [dedupAux] at hc
  | cons r0 rest ih =>
    unfold dedupAux at hc
    cases hh : rawHash r0.magnetLink with
    | none =>
      rw [hh] at hc
      obtain ⟨h1, pre, r, post, heq, hhash, hfirst, hcand⟩ := ih hc
      refine ⟨h1, r0 :: pre, r, post, by simp [heq], hhash, ?_, hcand⟩
      intro r2 hr2
      rcases List.mem_cons.mp hr2 with rfl | hr2
      · simp [hh]
      · exact hfirst r2 hr2
    | some h0 =>
      rw [hh] at hc
      dsimp only at hc
      by_cases hin : h0 ∈ seen
      · rw [if_pos hin] at hc
        obtain ⟨h1, pre, r, post, heq, hhash, hfirst, hcand⟩ := ih hc
        refine ⟨h1, r0 :: pre, r, post, by simp [heq], hhash, ?_, hcand⟩
        intro r2 hr2
        rcases List.mem_cons.mp hr2 with rfl | hr2
        · rw [hh]
          intro hcontra
          exact h1 ((Option.some_inj.mp hcontra) ▸ hin)
        · exact hfirst r2 hr2
      · rw [if_neg hin] at hc
        rcases List.mem_cons.mp hc with rfl | hc2
        · exact ⟨hin, [], r0, rest, rfl, hh, by simp, rfl⟩
        · obtain ⟨h1, pre, r, post, heq, hhash, hfirst, hcand⟩ := ih hc2
          have hne : c.hash ≠ h0 := fun he => h1 (he ▸ List.mem_cons_self h0 seen)
          refine ⟨fun hmem => h1 (List.mem_cons_of_mem _ hmem), r0 :: pre, r, post,
            by simp [heq], hhash, ?_, hcand⟩
          intro r2 hr2
          rcases List.mem_cons.mp hr2 with rfl | hr2
          · rw [hh]
            intro hcontra
            exact hne (Option.some_inj.mp hcontra).symm
          · exact hfirst r2 hr2

lemma dedupAux_pairwise (l : List RawResult) (seen : List String) :
    List.Pairwise (fun a b : Candidate => a.hash ≠ b.hash) (dedupAux l seen) := by
  induction l generalizing seen with
  | nil => simp [dedupAux]
  | cons r0 rest ih =>
    unfold dedupAux
    cases hh : rawHash r0.magnetLink with
    | none => exact ih seen
    | some h0 =>
      dsimp only
      by_cases hin : h0 ∈ seen
      · rw [if_pos hin]
        exact ih seen
      · rw [if_neg hin]
        refine List.Pairwise.cons ?_ (ih (h0 :: seen))
        intro b hb
        have hnotin := (dedupAux_mem hb).1
        have : b.hash ≠ h0 := fun he => hnotin (he ▸ List.mem_cons_self h0 seen)
        exact fun he => this (he ▸ rfl)

lemma dedupAux_complete {l : List RawResult} {r : RawResult} {h : String}
    (hr : r ∈ l) (hh : rawHash r.magnetLink = some h) :
    ∀ seen : List String, h ∈ seen ∨ ∃ c ∈ dedupAux l seen, c.hash = h := by
  induction l with
  | nil => simp at hr
  | cons r0 rest ih =>
    intro seen
    unfold dedupAux
    cases hh0 : rawHash r0.magnetLink with
    | none =>
      rcases List.mem_cons.mp hr with rfl | hr2
      · rw [hh0] at hh
        exact absurd hh (by simp)
      · exact ih hr2 seen
    | some h0 =>
      dsimp only
      by_cases hin : h0 ∈ seen
      · rw [if_pos hin]
        rcases List.mem_cons.mp hr with rfl | hr2
        · rw [hh0] at hh
          exact Or.inl ((Option.some_inj.mp hh) ▸ hin)
        · exact ih hr2 seen
      · rw [if_neg hin]
        rcases List.mem_cons.mp hr with rfl | hr2
        · rw [hh0] at hh
          right
          exact ⟨mkCandidate r h0, List.mem_cons_self _ _, Option.some_inj.mp hh⟩
        · rcases ih hr2 (h0 :: seen) with hmem | ⟨c, hc, hch⟩
          · rcases List.mem_cons.mp hmem with rfl | hmem2
            · right
              exact ⟨mkCandidate r0 h, List.mem_cons_self _ _, rfl⟩
            · exact Or.inl hmem2
          · exact Or.inr ⟨c, List.mem_cons_of_mem _ hc, hch⟩

/-- Claim C3.  Deduplication keys candidates by the lowercased btih hash of
the magnet URI: the merged output has pairwise distinct hashes; every emitted
candidate is built (`mkCandidate`) from the first raw result in concatenation
order carrying its hash, so it carries that occurrence's filename, quality and
size; every raw result with an extractable hash is represented; and a raw
result with no extractable hash is skipped without affecting the merge. -/
theorem dedup_by_btih_first_seen :
    ∀ l : List RawResult,
      List.Pairwise (fun a b : Candidate => a.hash ≠ b.hash) (dedupStreams l) ∧
      (∀ c ∈ dedupStreams l, ∃ pre r post, l = pre ++ r :: post ∧
        rawHash r.magnetLink = some c.hash ∧
        (∀ r2 ∈ pre, rawHash r2.magnetLink ≠ some c.hash) ∧ c = mkCandidate r c.hash) ∧
      (∀ r ∈ l, ∀ h : String, rawHash r.magnetLink = some h →
        ∃ c ∈ dedupStreams l, c.hash = h) ∧
      (∀ r : RawResult, rawHash r.magnetLink = none →
        ∀ rest : List RawResult, dedupStreams (r :: rest) = dedupStreams rest) := by
  intro l
  refine ⟨dedupAux_pairwise l [], ?_, ?_, ?_⟩
  · intro c hc
    exact (dedupAux_mem hc).2
  · intro r hr h hh
    rcases dedupAux_complete hr hh [] with hmem | hex
    · simp at hmem
    · exact hex
  · intro r hnone rest
    simp only [dedupStreams]
    conv_lhs => unfold dedupAux
    rw [hnone]

/-- Witness for claim C3 at concrete inputs: two raw results whose magnet URIs
carry the same btih hash in different letter case. -/
theorem dedup_by_btih_first_seen_witness :
    ∃ c ∈ dedupStreams
      [{ magnetLink := "magnet:?xt=urn:btih:AbCd", title := "First 720p", source := "P1" },
       { magnetLink := "magnet:?xt=urn:btih:aBcD", title := "Second 1080p", source := "P2" }],
      c.hash = "abcd" :=
  (dedup_by_btih_first_seen _).2.2.1
    { magnetLink := "magnet:?xt=urn:btih:AbCd", title := "First 720p", source := "P1" }
    (by simp) "abcd" (by decide)

lemma sortLe_iff (a b : OutStream) : sortLe a b = true ↔ rankLe a b := by
  unfold sortLe cmpStreams rankLe streamScore streamQuality streamSize
  simp only [decide_eq_true_eq, ne_eq, ite_not]
  by_cases h : parseQuality a.name = parseQuality b.name
  · rw [if_pos h, h]
    by_cases h2 : idealScore (parseSize a.name) (idealRange (parseQuality b.name)) =
        idealScore (parseSize b.name) (idealRange (parseQuality b.name))
    · rw [if_pos h2]
      omega
    · rw [if_neg h2]
      omega
  · rw [if_neg h]
    omega

lemma rankLe_total (a b : OutStream) : rankLe a b ∨ rankLe b a := by
  unfold rankLe
  omega

lemma rankLe_trans (a b c : OutStream) (h1 : rankLe a b) (h2 : rankLe b c) : rankLe a c := by
  unfold rankLe at h1 h2 ⊢
  omega

lemma sortStreams_sorted (l : List OutStream) : List.Sorted rankLe (sortStreams l) := by
  have h := @List.sorted_mergeSort OutStream sortLe
    (fun a b c hab hbc =>
      (sortLe_iff a c).mpr (rankLe_trans a b c ((sortLe_iff a b).mp hab) ((sortLe_iff b c).mp hbc)))
    (fun a b => by
      rcases rankLe_total a b with hr | hr
      · simp [(sortLe_iff a b).mpr hr]
      · simp [(sortLe_iff b a).mpr hr]) l
  exact List.Pairwise.imp (fun hab => (sortLe_iff _ _).mp hab) h

/-- Claim C4.  The output of `sortStreams` is pairwise ordered by the claimed
ranking relation — for `A` before `B`: higher quality tier first, then (equal
tiers) smaller size-fit score against the tier's ideal range, then (equal
scores) larger size — and that relation is total. -/
theorem sortStreams_total_order :
    (∀ l : List OutStream, List.Sorted rankLe (sortStreams l)) ∧
    (∀ a b : OutStream, rankLe a b ∨ rankLe b a) :=
  ⟨sortStreams_sorted, rankLe_total⟩

/-- Claim C6.  The route truncates the ranked list to its first 50 entries:
the cap has length `min n 50`, it is exactly the initial segment of the sorted
sequence (whose remainder it dominates under `rankLe`, by sortedness), the
sorted sequence is a permutation of the input, and the route handler never
returns more than 50 streams; with 80 candidates exactly 50 remain. -/
theorem top50_cap :
    (∀ l : List OutStream,
      (topStreams l).length = min l.length 50 ∧
      topStreams l ++ (sortStreams l).drop 50 = sortStreams l ∧
      (sortStreams l).Perm l ∧
      List.Sorted rankLe (sortStreams l) ∧
      (l.length = 80 → (topStreams l).length = 50)) ∧
    (∀ (t i : String) (ps : List (String × FetchOutcome)),
      (handleStream t i ps).length ≤ 50) := by
  constructor
  · intro l
    have hlen : (sortStreams l).length = l.length := by
      simp [sortStreams]
    have hmin : (topStreams l).length = min l.length 50 := by
      simp only [topStreams, List.length_take, hlen]
      omega
    refine ⟨hmin, List.take_append_drop _ _, List.mergeSort_perm l _, sortStreams_sorted l, ?_⟩
    intro h80
    omega
  · intro t i ps
    have htop : ∀ l : List OutStream, (topStreams l).length ≤ 50 := fun l => by
      simp only [topStreams, List.length_take]
      omega
    simp only [handleStream]
    split_ifs <;> simp [htop]

/-- Witness for claim C6: a concrete list of 80 streams is capped to exactly
50. -/
theorem top50_cap_witness :
    (topStreams (List.replicate 80
      { name := "n", title := "t", url := "u", infoHash := "h" })).length = 50 :=
  ((top50_cap.1 _).2.2.2.2) (by simp)

lemma mem_and_length_one {l : List Nat} {s : Nat} : (s ∈ l ∧ l.length = 1) ↔ l = [s] := by
  cases l with
  | nil => simp
  | cons a t =>
    cases t with
    | nil => simp [eq_comm]
    | cons b t2 => simp

/-- Claim C5.  The episode filter includes a title iff either its first
combined `SxxExx` token carries exactly the requested season and episode
(short-circuiting the standalone rules), or, with no combined token, the
standalone `Sxx` and `Exx` token collections are exactly the singletons of the
requested values — equivalently (as the spec words it) each collection has
exactly one entry and that entry matches.  The spec's concrete examples hold. -/
theorem episode_filter_policy :
    (∀ (title : String) (s e : Nat),
      episodeMatchTitle title (some s) (some e) = episodeMatchSpec title s e) ∧
    episodeMatchTitle "Show.S02E05.1080p" (some 2) (some 5) = true ∧
    episodeMatchTitle "Show.S02E05.1080p" (some 2) (some 6) = false ∧
    (∀ s e : Nat, episodeMatchTitle "Show.Season2.Complete" (some s) (some e) = false) := by
  refine ⟨?_, by decide, by decide, ?_⟩
  · intro title s e
    unfold episodeMatchTitle episodeMatchSpec episodeMatchText
    dsimp only
    cases hf : firstSxxExx (toLowerList title.toList) with
    | some p =>
      obtain ⟨a, b⟩ := p
      rw [Bool.eq_iff_iff]
      simp only [Bool.and_eq_true, decide_eq_true_eq, Option.some.injEq]
      constructor
      · rintro ⟨h1, h2⟩
        exact ⟨h1.symm, h2.symm⟩
      · rintro ⟨h1, h2⟩
        exact ⟨h1.symm, h2.symm⟩
    | none =>
      rw [Bool.eq_iff_iff]
      simp only [natIncludes, Bool.and_eq_true, decide_eq_true_eq]
      constructor
      · rintro ⟨⟨⟨hs, he⟩, hl1⟩, hl2⟩
        exact ⟨mem_and_length_one.mp ⟨hs, hl1⟩, mem_and_length_one.mp ⟨he, hl2⟩⟩
      · rintro ⟨h1, h2⟩
        have hA := mem_and_length_one.mpr h1
        have hB := mem_and_length_one.mpr h2
        exact ⟨⟨⟨hA.1, hB.1⟩, hA.2⟩, hB.2⟩
  · intro s e
    have hf : firstSxxExx (toLowerList "Show.Season2.Complete".toList) = none := by decide
    have hs : sTokens (toLowerList "Show.Season2.Complete".toList) = [] := by decide
    unfold episodeMatchTitle episodeMatchText
    rw [hf]
    dsimp only
    rw [hs]
    simp [natIncludes]

/-- Claim C8 (counterexample).  With no provider-supplied quality, the title
`"Movie.123p.mkv"` — containing none of the claimed tokens
`{2160p,1080p,720p,480p,4k,uhd,HDTS,CAM}` — still yields the non-empty derived
quality `"123p"`, because the source's pattern is `\d{3,4}p`, not the listed
resolutions. -/
theorem quality_regex_accepts_other_digit_tokens :
    (dedupStreams
      [{ magnetLink := "magnet:?xt=urn:btih:aa11", title := "Movie.123p.mkv" }]).map
      (fun c => c.quality) = ["123p"] ∧
    specQualityToken "Movie.123p.mkv" = "" := by
  exact ⟨rfl, rfl⟩

/-- Claim C8 (amended).  When the provider supplies no quality, the derived
quality is the first match of `/\d{3,4}p|4k|uhd|HDTS|CAM/i` in the title —
any three-or-four-digit run followed by `p` qualifies, not only the four
listed resolutions — and the empty string when nothing matches; each claimed
token does match itself, case preserved. -/
theorem quality_derivation_regex :
    (∀ r : RawResult, r.quality = "" → ∀ c ∈ dedupStreams [r],
      c.quality = matchQuality r.title) ∧
    matchQuality "x2160p" = "2160p" ∧ matchQuality "X.1080P.y" = "1080P" ∧
    matchQuality "a 720p" = "720p" ∧ matchQuality "480p" = "480p" ∧
    matchQuality "movie 4K" = "4K" ∧ matchQuality "UHD rip" = "UHD" ∧
    matchQuality "an HDTS copy" = "HDTS" ∧ matchQuality "CaM rip" = "CaM" ∧
    matchQuality "Movie.123p.mkv" = "123p" ∧ matchQuality "plain title" = "" := by
  refine ⟨?_, rfl, rfl, rfl, rfl, rfl, rfl, rfl, rfl, rfl, rfl⟩
  intro r hq c hc
  simp only [dedupStreams] at hc
  cases hh : rawHash r.magnetLink with
  | none =>
    unfold dedupAux at hc
    rw [hh] at hc
    simp [dedupAux] at hc
  | some h0 =>
    unfold dedupAux at hc
    rw [hh] at hc
    dsimp only at hc
    simp only [List.not_mem_nil, if_neg] at hc
    rcases List.mem_cons.mp hc with rfl | hc2
    · simp [mkCandidate, jsOr, hq]
    · simp [dedupAux] at hc2

/-- Witness for the amended claim C8 at a concrete raw result. -/
theorem quality_derivation_regex_witness :
    (mkCandidate { magnetLink := "magnet:?xt=urn:btih:aa11", title := "Movie.123p.mkv" }
      "aa11").quality = matchQuality "Movie.123p.mkv" :=
  quality_derivation_regex.1
    { magnetLink := "magnet:?xt=urn:btih:aa11", title := "Movie.123p.mkv" } rfl
    (mkCandidate { magnetLink := "magnet:?xt=urn:btih:aa11", title := "Movie.123p.mkv" } "aa11")
    (by decide)

lemma dval_lt_ten {c : Char} (h : isDigitC c = true) : dval c < 10 := by
  unfold isDigitC at h
  simp only [Bool.and_eq_true, decide_eq_true_eq] at h
  unfold dval
  omega

lemma epNum_lt {l : List Char} {n : Nat} (h : epNum l = some n) : n < 100 := by
  cases l with
  | nil => simp [epNum] at h
  | cons a t =>
    cases t with
    | nil =>
      simp only [epNum] at h
      split_ifs at h with h1
      have := dval_lt_ten h1
      have := Option.some_inj.mp h
      omega
    | cons b t2 =>
      simp only [epNum] at h
      split_ifs at h with h1 h2
      · have ha := dval_lt_ten h1
        have hb := dval_lt_ten h2
        have := Option.some_inj.mp h
        omega
      · have ha := dval_lt_ten h1
        have := Option.some_inj.mp h
        omega

lemma seasonEpAt_lt {l : List Char} {x y : Nat} (h : seasonEpAt l = some (x, y)) :
    x < 100 ∧ y < 100 := by
  match l with
  | [] => exact Option.noConfusion h
  | [c] => exact Option.noConfusion h
  | [c, a] => exact Option.noConfusion h
  | [c, a, b] => exact Option.noConfusion h
  | c :: a :: b :: e1 :: r3 =>
    unfold seasonEpAt at h
    dsimp only at h
    split_ifs at h with h1 h2 h3 h4
    · rw [Option.map_eq_some'] at h
      obtain ⟨ep, hep, hfe⟩ := h
      obtain ⟨hx, hy⟩ := Prod.mk.injEq .. ▸ hfe
      simp only [Bool.and_eq_true] at h1
      have ha := dval_lt_ten h1.2
      have hb := dval_lt_ten h2
      have he := epNum_lt hep
      omega
    · rw [Option.map_eq_some'] at h
      obtain ⟨ep, hep, hfe⟩ := h
      obtain ⟨hx, hy⟩ := Prod.mk.injEq .. ▸ hfe
      simp only [Bool.and_eq_true] at h1
      have ha := dval_lt_ten h1.2
      have he := epNum_lt hep
      omega

lemma scanFirst_some {α : Type} {f : List Char → Option α} :
    ∀ {l : List Char} {r : α}, scanFirst f l = some r → ∃ l2, f l2 = some r := by
  intro l
  induction l with
  | nil => intro r h; simp [scanFirst] at h
  | cons c rest ih =>
    intro r h
    unfold scanFirst at h
    cases hf : f (c :: rest) with
    | some x =>
      rw [hf] at h
      dsimp only at h
      exact ⟨c :: rest, by rw [hf, Option.some_inj.mp h]⟩
    | none =>
      rw [hf] at h
      dsimp only at h
      exact ih h

lemma markTokens_lt (m : Char) : ∀ l : List Char, ∀ x ∈ markTokens m l, x < 100
  | [] => by simp [markTokens]
  | [c] => by simp [markTokens]
  | [c, a] => by
    intro x hx
    unfold markTokens at hx
    split_ifs at hx with h1 h2
    · simp at hx
      have := dval_lt_ten h2
      omega
    · exact markTokens_lt m [a] x hx
    · exact markTokens_lt m [a] x hx
  | c :: a :: b :: r3 => by
    intro x hx
    unfold markTokens at hx
    split_ifs at hx with h1 h2 h3
    · rcases List.mem_cons.mp hx with rfl | hx2
      · have ha := dval_lt_ten h2
        have hb := dval_lt_ten h3
        omega
      · exact markTokens_lt m r3 x hx2
    · rcases List.mem_cons.mp hx with rfl | hx2
      · have ha := dval_lt_ten h2
        omega
      · exact markTokens_lt m (b :: r3) x hx2
    · exact markTokens_lt m (a :: b :: r3) x hx
    · exact markTokens_lt m (a :: b :: r3) x hx
termination_by l => l.length

/-- Claim C10.  The season/episode token patterns capture at most two digits,
so a requested season or episode of 100 or more never matches any title; in
particular a title token `E100` parses as episode 10. -/
theorem episode_tokens_capped_at_two_digits :
    (∀ (title : String) (s e : Nat), 100 ≤ s ∨ 100 ≤ e →
      episodeMatchTitle title (some s) (some e) = false) ∧
    eTokens (toLowerList "E100".toList) = [10] := by
  refine ⟨?_, by decide⟩
  intro title s e hse
  unfold episodeMatchTitle episodeMatchText
  cases hf : firstSxxExx (toLowerList title.toList) with
  | some p =>
    obtain ⟨a, b⟩ := p
    unfold firstSxxExx at hf
    obtain ⟨l2, hl2⟩ := scanFirst_some hf
    obtain ⟨ha, hb⟩ := seasonEpAt_lt hl2
    dsimp only
    rcases hse with hs | he
    · have hne : s ≠ a := by omega
      simp [hne]
    · have hne : e ≠ b := by omega
      simp [hne]
  | none =>
    dsimp only
    rcases hse with hs | he
    · have hmem : s ∉ sTokens (toLowerList title.data) := fun hm =>
        absurd (markTokens_lt 's' _ s hm) (by omega)
      simp [natIncludes, hmem]
    · have hmem : e ∉ eTokens (toLowerList title.data) := fun hm =>
        absurd (markTokens_lt 'e' _ e hm) (by omega)
      simp [natIncludes, hmem]

/-- Witness for claim C10 at concrete inputs. -/
theorem episode_tokens_capped_at_two_digits_witness :
    episodeMatchTitle "Show.S100E05" (some 100) (some 5) = false :=
  episode_tokens_capped_at_two_digits.1 "Show.S100E05" 100 5 (Or.inl (by decide))

end MultiTorr
